import Mathlib

/- Verification of the cash-flow / financial-metrics engine of app.py:
annuity payments, the PRICE amortization schedule, the consortium schedule,
the internal-rate solver, the present-value routine and the required-capital
estimator, all embedded in exact rational (and, for the NPV routine, real)
arithmetic. -/

/-- Python runtime exceptions the embedded numeric code can raise. -/
inductive PyErr
  | zeroDivision
deriving DecidableEq

/-- Denominator of the PRICE/annuity formula in annuity_payment:
`1 - (1 + r) ** (-months)`. -/
def annuityDenom (r : ℚ) (m : ℤ) : ℚ := 1 - (1 + r) ^ (-m)

/-- Value computed by annuity_payment in app.py (lines 40-48), in exact
rational arithmetic: 0 for zero months, straight-line principal/months for a
zero rate, otherwise the PRICE formula `r*P / (1 - (1+r)^(-n))`. -/
def annuityVal (principal r : ℚ) (m : ℤ) : ℚ :=
  if m = 0 then 0
  else if r = 0 then principal / (m : ℚ)
  else r * principal / annuityDenom r m

/-- Conditions under which the Python evaluation of annuity_payment raises
ZeroDivisionError: `0.0 ** negative` (when 1+r = 0 and months > 0), or a zero
denominator in the annuity formula. -/
def annuityErr (r : ℚ) (m : ℤ) : Bool :=
  if m = 0 then false
  else if r = 0 then false
  else if 1 + r = 0 ∧ 0 < m then true
  else if annuityDenom r m = 0 then true
  else false

/-- annuity_payment from app.py with its implicit Python failure paths made
explicit as an Except value. -/
def annuity_payment (principal r : ℚ) (m : ℤ) : Except PyErr ℚ :=
  if annuityErr r m then Except.error PyErr.zeroDivision
  else Except.ok (annuityVal principal r m)

/-- One row of the amortization DataFrame built by
financing_amortization_schedule (field names follow the source columns). -/
structure Row where
  month : ℕ
  saldo_inicial : ℚ
  juros : ℚ
  amortizacao : ℚ
  seguro : ℚ
  outras_taxas : ℚ
  parcela : ℚ
  saldo_final : ℚ
deriving DecidableEq, Inhabited

/-- Running balance of the amortization loop: `balance` after `m` iterations,
starting at the financed amount, with the source's clamp
`max(balance - amort, 0.0)`. -/
def finBalance (P r pay : ℚ) : ℕ → ℚ
  | 0 => P
  | m + 1 =>
      let b := finBalance P r pay m
      max (b - (pay - r * b)) 0

/-- The schedule row appended at month `i+1` of the loop in
financing_amortization_schedule; `i` indexes the opening balance. -/
def finRow (P r pay segM mf : ℚ) (i : ℕ) : Row :=
  let b := finBalance P r pay i
  { month := i + 1
    saldo_inicial := b
    juros := r * b
    amortizacao := pay - r * b
    seguro := segM
    outras_taxas := mf / 100 / 12 * b
    parcela := pay + segM + mf / 100 / 12 * b
    saldo_final := max (b - (pay - r * b)) 0 }

/-- The list of rows produced by financing_amortization_schedule (app.py
lines 50-109): the month-0 disbursement row followed by one row per month of
`range(1, months+1)` (empty when months is not positive). -/
def finRows (pv dp : ℚ) (months : ℤ) (annual ins upf mf : ℚ) : List Row :=
  let P := pv - dp
  let r := annual / 100 / 12
  let pay := annuityVal P r months
  let upfront := upf / 100 * P
  let segM := ins / 100 / 12 * P
  { month := 0, saldo_inicial := P, juros := 0, amortizacao := 0, seguro := 0,
    outras_taxas := upfront, parcela := dp + upfront, saldo_final := P }
    :: (List.range months.toNat).map (fun i => finRow P r pay segM mf i)

/-- financing_amortization_schedule from app.py: computes the annuity payment
(whose Python evaluation can raise) and then builds the rows; no input
validation of any kind is performed. -/
def financing_amortization_schedule (pv dp : ℚ) (months : ℤ)
    (annual ins upf mf : ℚ) : Except PyErr (List Row) :=
  if annuityErr (annual / 100 / 12) months then Except.error PyErr.zeroDivision
  else Except.ok (finRows pv dp months annual ins upf mf)

/-- Sum of the principal (amortizacao) column over periods 1..N, period 0
excluded. -/
def sumAmort (rows : List Row) : ℚ := ((rows.drop 1).map Row.amortizacao).sum

/-- One row of the consortium DataFrame built by compute_consorcio_cashflows. -/
structure ConsRow where
  month : ℕ
  amortizacao : ℚ
  admin : ℚ
  reserva : ℚ
  parcela : ℚ
deriving DecidableEq, Inhabited

/-- compute_consorcio_cashflows from app.py (lines 111-146): month-0 bid row
followed by identical linear-amortization rows for months 1..N. -/
def compute_consorcio_cashflows (credit : ℚ) (months : ℤ)
    (adminA reserveM bid : ℚ) : List ConsRow :=
  let parcelBase := if 0 < months then credit / (months : ℚ) else 0
  let adminMonthly := adminA / 100 / 12 * credit
  let reserveMonthly := reserveM / 100 * credit
  { month := 0, amortizacao := 0, admin := 0, reserva := bid, parcela := bid }
    :: (List.range months.toNat).map (fun i =>
      { month := i + 1
        amortizacao := parcelBase
        admin := adminMonthly
        reserva := reserveMonthly
        parcela := parcelBase + adminMonthly + reserveMonthly })

/-- Net present value of a cash-flow vector at periodic rate `r`:
`Σ cf_i / (1+r)^i`. -/
def npvAt (cfs : List ℚ) (r : ℚ) : ℚ :=
  (cfs.enum.map (fun p => p.2 / (1 + r) ^ p.1)).sum

/-- A cash-flow vector has a sign change when it holds both a positive and a
negative entry. -/
def hasSignChange (cfs : List ℚ) : Bool :=
  (cfs.any fun c => 0 < c) && (cfs.any fun c => c < 0)

/-- Bounded bisection root search for the NPV function, with the tolerance
|NPV| < 1e-6 and a hard iteration cap. -/
def bisectIrr (f : ℚ → ℚ) : ℕ → ℚ → ℚ → Option ℚ
  | 0, lo, hi =>
      let mid := (lo + hi) / 2
      if |f mid| < 1 / 1000000 then some mid else none
  | n + 1, lo, hi =>
      let mid := (lo + hi) / 2
      if |f mid| < 1 / 1000000 then some mid
      else if f lo * f mid < 0 then bisectIrr f n lo mid
      else bisectIrr f n mid hi

/-- Modelled from the spec: the internal-rate solver of §4.6 standing in for
the library call `np.irr` inside monthly_irr_from_cashflows (app.py lines
148-153); the library's own source is not part of this repository. It returns
the no-convergence sentinel (none, the NaN of the source) when the vector has
fewer than 2 entries or all entries have the same sign, and otherwise runs a
bounded bisection over [-0.99, 10] validating the |NPV| < 1e-6 tolerance.
The source wraps the whole computation in try/except, so no exception ever
reaches the caller; accordingly this model is a total function. -/
def monthly_irr_from_cashflows (cfs : List ℚ) : Option ℚ :=
  if cfs.length < 2 then none
  else if hasSignChange cfs then bisectIrr (npvAt cfs) 100 (-99 / 100) 10
  else none

/-- required_capital_to_cover_payment from app.py (lines 165-168): NaN
(modelled as none) for a non-positive monthly return, else payment/return. -/
def required_capital_to_cover_payment (monthly_payment monthly_return_pct : ℚ) :
    Option ℚ :=
  if monthly_return_pct ≤ 0 then none
  else some (monthly_payment / monthly_return_pct)

/-- C2: with periodic rate 0 the annuity payment calculator returns exactly
principal/numberOfPeriods for every numberOfPeriods ≥ 1 — in particular
120000 over 12 periods gives exactly 10000 — and returns 0 when
numberOfPeriods = 0. -/
theorem annuity_zero_rate_straight_line (principal : ℚ) (n : ℤ) :
    (1 ≤ n → annuity_payment principal 0 n = Except.ok (principal / (n : ℚ))) ∧
    annuity_payment principal 0 0 = Except.ok 0 ∧
    annuity_payment 120000 0 12 = Except.ok 10000 := by
  refine ⟨fun hn => ?_, ?_, ?_⟩
  · have hne : n ≠ 0 := by omega
    simp [annuity_payment, annuityErr, annuityVal, hne]
  · simp [annuity_payment, annuityErr, annuityVal]
  · norm_num [annuity_payment, annuityErr, annuityVal]

/-- Witness for annuity_zero_rate_straight_line: 120000 over 12 periods at
rate 0 yields 120000/12. -/
theorem annuity_zero_rate_straight_line_witness :
    annuity_payment 120000 0 12 = Except.ok ((120000 : ℚ) / ((12 : ℤ) : ℚ)) :=
  (annuity_zero_rate_straight_line 120000 12).1 (by norm_num)

/-- C8: the required-capital estimator returns exactly payment/return for
every positive monthly return fraction (1000 at 1/100 gives exactly 100000)
and the undefined sentinel for every non-positive one (0 and -1/100
included); it is a total function, so it never crashes. -/
theorem required_capital_spec (p r : ℚ) :
    (0 < r → required_capital_to_cover_payment p r = some (p / r)) ∧
    (r ≤ 0 → required_capital_to_cover_payment p r = none) ∧
    required_capital_to_cover_payment 1000 (1 / 100) = some 100000 ∧
    required_capital_to_cover_payment 1000 0 = none ∧
    required_capital_to_cover_payment 1000 (-1 / 100) = none := by
  refine ⟨fun hr => ?_, fun hr => ?_, ?_, ?_, ?_⟩
  · simp [required_capital_to_cover_payment, not_le.mpr hr]
  · simp [required_capital_to_cover_payment, hr]
  · norm_num [required_capital_to_cover_payment]
  · norm_num [required_capital_to_cover_payment]
  · norm_num [required_capital_to_cover_payment]

/-- Witness for required_capital_spec: 1000 at a monthly return of 1/100
requires exactly 100000 of capital. -/
theorem required_capital_spec_witness :
    required_capital_to_cover_payment 1000 (1 / 100) = some (1000 / (1 / 100)) :=
  (required_capital_spec 1000 (1 / 100)).1 (by norm_num)

/-- Indexing into a mapped range list with getD picks out the function value. -/
theorem getD_range_map {α : Type} [Inhabited α] (f : ℕ → α) {i n : ℕ}
    (h : i < n) : ((List.range n).map f).getD i default = f i := by
  rw [List.getD_eq_getElem _ _ (by simpa using h)]
  simp

/-- C1: on a cash-flow vector whose entries are all negative (no sign
change), the internal-rate solver returns the no-convergence sentinel, never
a numeric rate; being a total function, it raises no exception. -/
theorem irr_all_negative_returns_sentinel (cfs : List ℚ)
    (h : ∀ c ∈ cfs, c < 0) :
    monthly_irr_from_cashflows cfs = none := by
  unfold monthly_irr_from_cashflows
  by_cases hl : cfs.length < 2
  · simp [hl]
  · have hpos : (cfs.any fun c => decide (0 < c)) = false := by
      simp only [List.any_eq_false, decide_eq_true_eq]
      intro x hx
      exact not_lt.mpr (h x hx).le
    have hs : hasSignChange cfs = false := by
      unfold hasSignChange
      simp [hpos]
    simp [hl, hs]

/-- Witness for irr_all_negative_returns_sentinel on the vector [-1, -2]. -/
theorem irr_all_negative_returns_sentinel_witness :
    monthly_irr_from_cashflows [-1, -2] = none :=
  irr_all_negative_returns_sentinel [-1, -2] (by decide)

/-- C6 counterexample: for the invalid termMonths -5 the scheduler does not
signal any error; it silently returns the one-row (period-0 only) schedule. -/
theorem scheduler_negative_term_counterexample :
    financing_amortization_schedule 100 0 (-5) 0 0 0 0 =
      Except.ok [⟨0, 100, 0, 0, 0, 0, 0, 100⟩] := by
  have h0 : ((-5 : ℤ)).toNat = 0 := rfl
  norm_num [financing_amortization_schedule, annuityErr, finRows, h0,
    Row.mk.injEq]

/-- Powers of 1 + r exceed 1 for a positive rate and a nonzero exponent. -/
theorem one_lt_pow_one_add {r : ℚ} (hr : 0 < r) {k : ℕ} (hk : k ≠ 0) :
    1 < (1 + r) ^ k :=
  one_lt_pow₀ (by linarith) hk

/-- With a non-negative monthly rate no Python exception path of
annuity_payment is reachable. -/
theorem annuityErr_false_of_nonneg {r : ℚ} (hr : 0 ≤ r) (m : ℤ) :
    annuityErr r m = false := by
  unfold annuityErr
  by_cases hm : m = 0
  · simp [hm]
  by_cases hr0 : r = 0
  · simp [hm, hr0]
  have hrpos : 0 < r := lt_of_le_of_ne hr (Ne.symm hr0)
  have hcon : ¬(1 + r = 0 ∧ 0 < m) := by
    rintro ⟨hc, -⟩; linarith
  have hden : ¬annuityDenom r m = 0 := by
    unfold annuityDenom
    rcases lt_trichotomy m 0 with hneg | hzero | hpos
    · have hm' : (((-m).toNat : ℤ)) = -m := Int.toNat_of_nonneg (by omega)
      rw [← hm', zpow_natCast]
      have h1 : 1 < (1 + r) ^ (-m).toNat := one_lt_pow_one_add hrpos (by omega)
      intro hc
      have : (1 + r) ^ (-m).toNat = 1 := by linarith
      linarith
    · exact absurd hzero hm
    · have hm' : ((m.toNat : ℤ)) = m := Int.toNat_of_nonneg (by omega)
      rw [← hm', zpow_neg, zpow_natCast]
      have h1 : 1 < (1 + r) ^ m.toNat := one_lt_pow_one_add hrpos (by omega)
      have hlt : ((1 + r) ^ m.toNat)⁻¹ < 1 := inv_lt_one_of_one_lt₀ h1
      have hpos' : 0 < ((1 + r) ^ m.toNat)⁻¹ := by positivity
      intro hc
      linarith
  simp [hm, hr0, hcon, hden]

/-- C6 amended: for every non-negative annual rate the scheduler completes
deterministically without any error, whatever termMonths is (negative
included), returning max(termMonths, 0) + 1 rows. -/
theorem scheduler_total_for_nonneg_rate (pv dp : ℚ) (months : ℤ)
    (annual ins upf mf : ℚ) (h : 0 ≤ annual) :
    financing_amortization_schedule pv dp months annual ins upf mf =
      Except.ok (finRows pv dp months annual ins upf mf) ∧
    (finRows pv dp months annual ins upf mf).length = months.toNat + 1 := by
  constructor
  · unfold financing_amortization_schedule
    rw [annuityErr_false_of_nonneg (by positivity) months]
    simp
  · simp [finRows]

/-- Witness for scheduler_total_for_nonneg_rate at a negative term of -5
months and zero rate. -/
theorem scheduler_total_for_nonneg_rate_witness :
    financing_amortization_schedule 100 0 (-5) 0 0 0 0 =
      Except.ok (finRows 100 0 (-5) 0 0 0 0) ∧
    (finRows 100 0 (-5) 0 0 0 0).length = (-5 : ℤ).toNat + 1 :=
  scheduler_total_for_nonneg_rate 100 0 (-5) 0 0 0 0 (le_refl 0)

/-- Rows 1..n of the financing schedule are the finRow values. -/
theorem finRows_getD_succ (pv dp : ℚ) (n : ℕ) (annual ins upf mf : ℚ)
    {i : ℕ} (h : i < n) :
    (finRows pv dp (n : ℤ) annual ins upf mf).getD (i + 1) default =
      finRow (pv - dp) (annual / 100 / 12)
        (annuityVal (pv - dp) (annual / 100 / 12) (n : ℤ))
        (ins / 100 / 12 * (pv - dp)) mf i := by
  unfold finRows
  simp only [List.getD_cons_succ]
  exact getD_range_map _ (by omega)

/-- C10: in every row of the financing schedule for periods 1..termMonths the
total payment equals exactly the sum of the interest, principal, insurance
and other-fees components. -/
theorem schedule_row_payment_decomposition (pv dp : ℚ) (n : ℕ)
    (annual ins upf mf : ℚ) (m : ℕ) (h1 : 1 ≤ m) (h2 : m ≤ n) :
    ((finRows pv dp (n : ℤ) annual ins upf mf).getD m default).parcela =
      ((finRows pv dp (n : ℤ) annual ins upf mf).getD m default).juros +
      ((finRows pv dp (n : ℤ) annual ins upf mf).getD m default).amortizacao +
      ((finRows pv dp (n : ℤ) annual ins upf mf).getD m default).seguro +
      ((finRows pv dp (n : ℤ) annual ins upf mf).getD m default).outras_taxas := by
  obtain ⟨i, rfl⟩ : ∃ i, m = i + 1 := ⟨m - 1, by omega⟩
  rw [finRows_getD_succ pv dp n annual ins upf mf (by omega)]
  simp only [finRow]
  ring

/-- Witness for schedule_row_payment_decomposition at a 12-percent, 2-month
loan of 100, row 1. -/
theorem schedule_row_payment_decomposition_witness :
    ((finRows 100 0 ((2 : ℕ) : ℤ) 12 6 0 1).getD 1 default).parcela =
      ((finRows 100 0 ((2 : ℕ) : ℤ) 12 6 0 1).getD 1 default).juros +
      ((finRows 100 0 ((2 : ℕ) : ℤ) 12 6 0 1).getD 1 default).amortizacao +
      ((finRows 100 0 ((2 : ℕ) : ℤ) 12 6 0 1).getD 1 default).seguro +
      ((finRows 100 0 ((2 : ℕ) : ℤ) 12 6 0 1).getD 1 default).outras_taxas :=
  schedule_row_payment_decomposition 100 0 2 12 6 0 1 1 (by norm_num) (by norm_num)

/-- C7: for termMonths ≥ 1 the consortium schedule's row 0 is zero in every
component except the reserve, which equals the initial bid (as does the total
payment), and every row 1..termMonths carries the identical total payment
credit/term + adminAnnual/100/12 * credit + reserveMonthly/100 * credit. -/
theorem consortium_rows_spec (credit : ℚ) (months : ℤ)
    (adminA reserveM bid : ℚ) (h : 1 ≤ months) :
    (compute_consorcio_cashflows credit months adminA reserveM bid).getD 0
        default =
      { month := 0, amortizacao := 0, admin := 0, reserva := bid,
        parcela := bid } ∧
    ∀ m : ℕ, 1 ≤ m → (m : ℤ) ≤ months →
      (compute_consorcio_cashflows credit months adminA reserveM bid).getD m
          default =
        { month := m
          amortizacao := credit / (months : ℚ)
          admin := adminA / 100 / 12 * credit
          reserva := reserveM / 100 * credit
          parcela := credit / (months : ℚ) + adminA / 100 / 12 * credit +
            reserveM / 100 * credit } := by
  constructor
  · rfl
  · intro m hm1 hm2
    obtain ⟨i, rfl⟩ : ∃ j, m = j + 1 := ⟨m - 1, by omega⟩
    unfold compute_consorcio_cashflows
    simp only [List.getD_cons_succ]
    rw [getD_range_map _ (by omega : i < months.toNat)]
    simp [if_pos (by omega : (0 : ℤ) < months)]

/-- Witness for consortium_rows_spec: a 1200 credit over 2 months with 12
percent annual admin, 1 percent monthly reserve and a 50 bid. -/
theorem consortium_rows_spec_witness :
    (compute_consorcio_cashflows 1200 2 12 1 50).getD 1 default =
      { month := 1, amortizacao := 1200 / ((2 : ℤ) : ℚ),
        admin := 12 / 100 / 12 * 1200, reserva := 1 / 100 * 1200,
        parcela := 1200 / ((2 : ℤ) : ℚ) + 12 / 100 / 12 * 1200 +
          1 / 100 * 1200 } :=
  (consortium_rows_spec 1200 2 12 1 50 (by norm_num)).2 1 (by norm_num)
    (by norm_num)

/-- For a positive rate and at least one month the annuity denominator lies
strictly between 0 and 1. -/
theorem annuityDenom_pos_lt_one {r : ℚ} (hr : 0 < r) {n : ℕ} (hn : 1 ≤ n) :
    0 < annuityDenom r (n : ℤ) ∧ annuityDenom r (n : ℤ) < 1 := by
  unfold annuityDenom
  have hp : 1 < (1 + r) ^ n := one_lt_pow_one_add hr (by omega)
  have hzp : (1 + r) ^ (-(n : ℤ)) = ((1 + r) ^ n)⁻¹ := by
    rw [zpow_neg, zpow_natCast]
  rw [hzp]
  have h0 : (0 : ℚ) < ((1 + r) ^ n)⁻¹ := by positivity
  have h1 : ((1 + r) ^ n)⁻¹ < 1 := inv_lt_one_of_one_lt₀ hp
  constructor <;> linarith

/-- The annuity payment covers at least the first month's interest on a
non-negative principal at a non-negative rate. -/
theorem interest_le_annuityVal {P r : ℚ} (hP : 0 ≤ P) (hr : 0 ≤ r) {n : ℕ}
    (hn : 1 ≤ n) : r * P ≤ annuityVal P r (n : ℤ) := by
  have hne : ((n : ℤ)) ≠ 0 := by omega
  rcases eq_or_lt_of_le hr with hr0 | hrpos
  · have hr0' : r = 0 := hr0.symm
    subst hr0'
    rw [annuityVal, if_neg hne, if_pos rfl, zero_mul]
    positivity
  · have hd := annuityDenom_pos_lt_one hrpos hn
    rw [annuityVal, if_neg hne, if_neg (ne_of_gt hrpos)]
    rw [le_div_iff₀ hd.1]
    exact mul_le_of_le_one_right (mul_nonneg hrpos.le hP) hd.2.le

/-- The annuity payment strictly exceeds the first month's interest on a
positive principal at a positive rate. -/
theorem interest_lt_annuityVal {P r : ℚ} (hP : 0 < P) (hr : 0 < r) {n : ℕ}
    (hn : 1 ≤ n) : r * P < annuityVal P r (n : ℤ) := by
  have hne : ((n : ℤ)) ≠ 0 := by omega
  have hd := annuityDenom_pos_lt_one hr hn
  rw [annuityVal, if_neg hne, if_neg (ne_of_gt hr)]
  rw [lt_div_iff₀ hd.1]
  exact mul_lt_of_lt_one_right (mul_pos hr hP) hd.2

/-- Balance invariant of the amortization loop: with a non-negative principal
and rate and a payment covering the first month's interest, the running
balance stays within [0, P]. -/
theorem finBalance_bounds {P r pay : ℚ} (hP : 0 ≤ P) (hr : 0 ≤ r)
    (hpay : r * P ≤ pay) (m : ℕ) :
    0 ≤ finBalance P r pay m ∧ finBalance P r pay m ≤ P := by
  induction m with
  | zero => exact ⟨hP, le_refl P⟩
  | succ k ih =>
    simp only [finBalance]
    refine ⟨le_max_right _ _, max_le ?_ hP⟩
    nlinarith [mul_le_mul_of_nonneg_left ih.2 hr]

/-- The running balance of the amortization loop never increases from one
month to the next. -/
theorem finBalance_mono_succ {P r pay : ℚ} (hP : 0 ≤ P) (hr : 0 ≤ r)
    (hpay : r * P ≤ pay) (m : ℕ) :
    finBalance P r pay (m + 1) ≤ finBalance P r pay m := by
  have hb := finBalance_bounds hP hr hpay m
  simp only [finBalance]
  refine max_le ?_ hb.1
  nlinarith [mul_le_mul_of_nonneg_left hb.2 hr]

/-- The running balance of the amortization loop is non-increasing. -/
theorem finBalance_mono {P r pay : ℚ} (hP : 0 ≤ P) (hr : 0 ≤ r)
    (hpay : r * P ≤ pay) {i j : ℕ} (h : i ≤ j) :
    finBalance P r pay j ≤ finBalance P r pay i := by
  induction j, h using Nat.le_induction with
  | base => exact le_refl _
  | succ k hk ih => exact le_trans (finBalance_mono_succ hP hr hpay k) ih

/-- After the first month the balance has strictly decreased, provided the
payment strictly exceeds the first month's interest. -/
theorem finBalance_one_lt {P r pay : ℚ} (hP : 0 < P) (hpay : r * P < pay) :
    finBalance P r pay 1 < P := by
  simp only [finBalance]
  refine max_lt ?_ hP
  linarith

/-- Variant of finRows_getD_succ phrased for a positive row index. -/
theorem finRows_getD_pos (pv dp : ℚ) (n : ℕ) (annual ins upf mf : ℚ)
    (m : ℕ) (h1 : 1 ≤ m) (h2 : m ≤ n) :
    (finRows pv dp (n : ℤ) annual ins upf mf).getD m default =
      finRow (pv - dp) (annual / 100 / 12)
        (annuityVal (pv - dp) (annual / 100 / 12) (n : ℤ))
        (ins / 100 / 12 * (pv - dp)) mf (m - 1) := by
  obtain ⟨i, rfl⟩ : ∃ i, m = i + 1 := ⟨m - 1, by omega⟩
  simp only [Nat.add_sub_cancel]
  exact finRows_getD_succ pv dp n annual ins upf mf (by omega)

/-- The closing balance recorded in row i of the schedule is the running
balance after i months. -/
theorem finRows_getD_saldo_final (pv dp : ℚ) (n : ℕ) (annual ins upf mf : ℚ)
    {i : ℕ} (h : i ≤ n) :
    ((finRows pv dp (n : ℤ) annual ins upf mf).getD i default).saldo_final =
      finBalance (pv - dp) (annual / 100 / 12)
        (annuityVal (pv - dp) (annual / 100 / 12) (n : ℤ)) i := by
  cases i with
  | zero => simp [finRows, finBalance]
  | succ k =>
    rw [finRows_getD_succ pv dp n annual ins upf mf (by omega)]
    simp [finRow, finBalance]

/-- C3 counterexample: with a down payment exceeding the property value
(financed amount -100, rate 0, one month) the schedule's closing balance is
negative at period 0 and increases from period 0 to period 1. -/
theorem schedule_negative_balance_counterexample :
    ((finRows 0 100 ((1 : ℕ) : ℤ) 0 0 0 0).getD 0 default).saldo_final < 0 ∧
    ((finRows 0 100 ((1 : ℕ) : ℤ) 0 0 0 0).getD 0 default).saldo_final <
      ((finRows 0 100 ((1 : ℕ) : ℤ) 0 0 0 0).getD 1 default).saldo_final := by
  have hrange : List.range 1 = [0] := rfl
  norm_num [finRows, finRow, finBalance, annuityVal, hrange,
    List.getD_cons_zero, List.getD_cons_succ, max_def]

/-- C3 amended: for every termMonths ≥ 0, non-negative annual rate and down
payment not exceeding the property value, the schedule has exactly
termMonths + 1 rows and its closing-balance column is monotonically
non-increasing and never negative. -/
theorem schedule_balance_invariants (pv dp annual ins upf mf : ℚ) (n : ℕ)
    (hr : 0 ≤ annual) (hdp : dp ≤ pv) :
    (finRows pv dp (n : ℤ) annual ins upf mf).length = n + 1 ∧
    (∀ i j : ℕ, i ≤ j → j ≤ n →
      ((finRows pv dp (n : ℤ) annual ins upf mf).getD j default).saldo_final ≤
        ((finRows pv dp (n : ℤ) annual ins upf mf).getD i
          default).saldo_final) ∧
    (∀ i : ℕ, i ≤ n →
      0 ≤ ((finRows pv dp (n : ℤ) annual ins upf mf).getD i
        default).saldo_final) := by
  have hP : 0 ≤ pv - dp := by linarith
  have hrm : 0 ≤ annual / 100 / 12 := by positivity
  refine ⟨by simp [finRows], ?_, ?_⟩
  · intro i j hij hjn
    rcases Nat.eq_zero_or_pos n with hn0 | hn1
    · have hi : i = 0 := by omega
      have hj : j = 0 := by omega
      subst hi
      subst hj
      exact le_refl _
    · have hpay := interest_le_annuityVal hP hrm hn1
      rw [finRows_getD_saldo_final pv dp n annual ins upf mf hjn,
        finRows_getD_saldo_final pv dp n annual ins upf mf
          (le_trans hij hjn)]
      exact finBalance_mono hP hrm hpay hij
  · intro i hin
    rcases Nat.eq_zero_or_pos n with hn0 | hn1
    · have hi : i = 0 := by omega
      subst hi
      rw [finRows_getD_saldo_final pv dp n annual ins upf mf hin]
      simpa [finBalance] using hP
    · have hpay := interest_le_annuityVal hP hrm hn1
      rw [finRows_getD_saldo_final pv dp n annual ins upf mf hin]
      exact (finBalance_bounds hP hrm hpay i).1

/-- Witness for schedule_balance_invariants: the closing balance at period 2
of a 2-month, 12-percent loan of 100 is non-negative. -/
theorem schedule_balance_invariants_witness :
    0 ≤ ((finRows 100 0 ((2 : ℕ) : ℤ) 12 0 0 0).getD 2 default).saldo_final :=
  (schedule_balance_invariants 100 0 12 0 0 0 2 (by norm_num)
    (by norm_num)).2.2 2 (le_refl 2)

/-- Between the first and any later period the interest component strictly
falls and the principal component strictly rises, for a positive financed
amount and rate and a payment exceeding the first month's interest. -/
theorem finRow_crossover {P r pay : ℚ} (hP : 0 < P) (hr : 0 < r)
    (hpay : r * P < pay) {k : ℕ} (hk : 1 ≤ k) (segM mf : ℚ) :
    (finRow P r pay segM mf 0).amortizacao <
      (finRow P r pay segM mf k).amortizacao ∧
    (finRow P r pay segM mf k).juros < (finRow P r pay segM mf 0).juros := by
  have h1 : finBalance P r pay 1 < P := finBalance_one_lt hP hpay
  have hk1 : finBalance P r pay k ≤ finBalance P r pay 1 :=
    finBalance_mono hP.le hr.le hpay.le hk
  have hb0 : finBalance P r pay 0 = P := rfl
  have hlt : finBalance P r pay k < P := lt_of_le_of_lt hk1 h1
  have hmul : r * finBalance P r pay k < r * P :=
    mul_lt_mul_of_pos_left hlt hr
  simp only [finRow, hb0]
  exact ⟨by linarith, hmul⟩

/-- C9: in the concrete 600000-property, 120000-down, 360-month, 9-percent
scenario with 0.6-percent insurance and a 1-percent upfront fee, the
principal component at period 360 strictly exceeds the one at period 1 and
the interest component at period 360 is strictly below the one at period 1. -/
theorem schedule_period360_crossover :
    ((finRows 600000 120000 ((360 : ℕ) : ℤ) 9 0.6 1 0).getD 1
        default).amortizacao <
      ((finRows 600000 120000 ((360 : ℕ) : ℤ) 9 0.6 1 0).getD 360
        default).amortizacao ∧
    ((finRows 600000 120000 ((360 : ℕ) : ℤ) 9 0.6 1 0).getD 360
        default).juros <
      ((finRows 600000 120000 ((360 : ℕ) : ℤ) 9 0.6 1 0).getD 1
        default).juros := by
  rw [finRows_getD_pos 600000 120000 360 9 0.6 1 0 1 (by norm_num)
      (by norm_num),
    finRows_getD_pos 600000 120000 360 9 0.6 1 0 360 (by norm_num)
      (by norm_num),
    (by norm_num : (1 - 1 : ℕ) = 0), (by norm_num : (360 - 1 : ℕ) = 359)]
  exact finRow_crossover (by norm_num) (by norm_num)
    (interest_lt_annuityVal (by norm_num) (by norm_num) (by norm_num))
    (by norm_num) _ _

/-- The amortization balance recurrence without the clamp at zero. -/
def linBalance (P r pay : ℚ) : ℕ → ℚ
  | 0 => P
  | m + 1 => (1 + r) * linBalance P r pay m - pay

/-- Accumulated value of a unit annuity after m months at rate r. -/
def geomAcc (r : ℚ) : ℕ → ℚ
  | 0 => 0
  | m + 1 => (1 + r) * geomAcc r m + 1

/-- Closed form of the unclamped balance in terms of the annuity
accumulator. -/
theorem linBalance_closed (P r pay : ℚ) (m : ℕ) :
    linBalance P r pay m = (1 + r) ^ m * P - pay * geomAcc r m := by
  induction m with
  | zero => simp [linBalance, geomAcc]
  | succ k ih =>
    simp only [linBalance, geomAcc, pow_succ]
    rw [ih]
    ring

/-- At rate zero the annuity accumulator is the month counter. -/
theorem geomAcc_zero_rate (m : ℕ) : geomAcc 0 m = m := by
  induction m with
  | zero => simp [geomAcc]
  | succ k ih =>
    simp only [geomAcc, ih]
    push_cast
    ring

/-- At a nonzero rate the annuity accumulator is the geometric sum
((1+r)^m - 1)/r. -/
theorem geomAcc_eq {r : ℚ} (hr : r ≠ 0) (m : ℕ) :
    geomAcc r m = ((1 + r) ^ m - 1) / r := by
  induction m with
  | zero => simp [geomAcc]
  | succ k ih =>
    simp only [geomAcc, pow_succ, ih]
    field_simp
    ring

/-- Closed form of the unclamped balance under the PRICE payment at a
positive rate. -/
theorem linBalance_formula {P r : ℚ} (hr : 0 < r) {n : ℕ} (hn : 1 ≤ n)
    (m : ℕ) :
    linBalance P r (annuityVal P r (n : ℤ)) m =
      P * ((1 + r) ^ n - (1 + r) ^ m) / ((1 + r) ^ n - 1) := by
  have hne : ((n : ℤ)) ≠ 0 := by omega
  have hrne : r ≠ 0 := ne_of_gt hr
  have hBgt : 1 < (1 + r) ^ n := one_lt_pow_one_add hr (by omega)
  have hB0 : (1 + r) ^ n - 1 ≠ 0 := ne_of_gt (by linarith)
  have hpow : (0 : ℚ) < (1 + r) ^ n := by positivity
  have hBne : (1 + r) ^ n ≠ 0 := ne_of_gt hpow
  have hd : 1 - ((1 + r) ^ n)⁻¹ = ((1 + r) ^ n - 1) / (1 + r) ^ n := by
    field_simp
  have hpay : annuityVal P r (n : ℤ) =
      r * P * (1 + r) ^ n / ((1 + r) ^ n - 1) := by
    rw [annuityVal, if_neg hne, if_neg hrne]
    unfold annuityDenom
    rw [zpow_neg, zpow_natCast, hd, div_div_eq_mul_div]
  rw [linBalance_closed, geomAcc_eq hrne, hpay]
  field_simp
  ring

/-- Closed form of the unclamped balance under the straight-line payment at
rate zero. -/
theorem linBalance_zero_rate (P : ℚ) {n : ℕ} (hn : 1 ≤ n) (m : ℕ) :
    linBalance P 0 (annuityVal P 0 (n : ℤ)) m = P - P / n * m := by
  have hne : ((n : ℤ)) ≠ 0 := by omega
  rw [linBalance_closed, geomAcc_zero_rate, annuityVal, if_neg hne,
    if_pos rfl]
  push_cast
  ring

/-- Within the term the unclamped balance is never negative. -/
theorem linBalance_nonneg {P r : ℚ} (hP : 0 ≤ P) (hr : 0 ≤ r) {n : ℕ}
    (hn : 1 ≤ n) {m : ℕ} (hm : m ≤ n) :
    0 ≤ linBalance P r (annuityVal P r (n : ℤ)) m := by
  rcases eq_or_lt_of_le hr with hr0 | hrpos
  · have hr0' : r = 0 := hr0.symm
    subst hr0'
    rw [linBalance_zero_rate P hn m]
    have hn0 : (0 : ℚ) < n := by
      exact_mod_cast Nat.pos_of_ne_zero (by omega)
    have hmn : (m : ℚ) ≤ n := Nat.cast_le.mpr hm
    have hle : P / n * m ≤ P := by
      rw [div_mul_eq_mul_div, div_le_iff₀ hn0]
      nlinarith
    linarith
  · rw [linBalance_formula hrpos hn m]
    have h1r : (1 : ℚ) ≤ 1 + r := by linarith
    have hmn : (1 + r) ^ m ≤ (1 + r) ^ n := pow_le_pow_right₀ h1r hm
    have hBgt : 1 < (1 + r) ^ n := one_lt_pow_one_add hrpos (by omega)
    apply div_nonneg
    · exact mul_nonneg hP (by linarith)
    · linarith

/-- At the end of the term the unclamped balance is exactly zero. -/
theorem linBalance_final {P r : ℚ} (hr : 0 ≤ r) {n : ℕ} (hn : 1 ≤ n) :
    linBalance P r (annuityVal P r (n : ℤ)) n = 0 := by
  rcases eq_or_lt_of_le hr with hr0 | hrpos
  · have hr0' : r = 0 := hr0.symm
    subst hr0'
    rw [linBalance_zero_rate P hn n]
    have hn0 : (n : ℚ) ≠ 0 := Nat.cast_ne_zero.mpr (by omega)
    field_simp
  · rw [linBalance_formula hrpos hn n]
    simp

/-- Within the term the clamp at zero never fires: the loop balance equals
the unclamped balance. -/
theorem finBalance_eq_linBalance {P r : ℚ} (hP : 0 ≤ P) (hr : 0 ≤ r)
    {n : ℕ} (hn : 1 ≤ n) {m : ℕ} (hm : m ≤ n) :
    finBalance P r (annuityVal P r (n : ℤ)) m =
      linBalance P r (annuityVal P r (n : ℤ)) m := by
  induction m with
  | zero => rfl
  | succ k ih =>
    have hk : k ≤ n := by omega
    have hnext : 0 ≤ (1 + r) * linBalance P r (annuityVal P r (n : ℤ)) k -
        annuityVal P r (n : ℤ) := by
      have hnn := linBalance_nonneg hP hr hn (show k + 1 ≤ n by omega)
      simpa [linBalance] using hnn
    simp only [finBalance, linBalance]
    rw [ih hk, show linBalance P r (annuityVal P r (n : ℤ)) k -
        (annuityVal P r (n : ℤ) -
          r * linBalance P r (annuityVal P r (n : ℤ)) k) =
        (1 + r) * linBalance P r (annuityVal P r (n : ℤ)) k -
          annuityVal P r (n : ℤ) from by ring]
    exact max_eq_left hnext

/-- Telescoping: the unclamped principal components over months 1..n sum to
the drop in the unclamped balance. -/
theorem sum_linAmort (P r pay : ℚ) (n : ℕ) :
    ((List.range n).map (fun m => pay - r * linBalance P r pay m)).sum =
      P - linBalance P r pay n := by
  induction n with
  | zero => simp [linBalance]
  | succ k ih =>
    rw [List.range_succ, List.map_append, List.sum_append]
    simp only [List.map_cons, List.map_nil, List.sum_cons, List.sum_nil]
    rw [ih]
    simp only [linBalance]
    ring

/-- Core of C4: under the PRICE payment the recorded principal components
sum to the principal and the final balance is zero. -/
theorem sumAmort_core {P r : ℚ} (hP : 0 ≤ P) (hr : 0 ≤ r) {n : ℕ}
    (hn : 1 ≤ n) :
    ((List.range n).map (fun m => annuityVal P r (n : ℤ) -
      r * finBalance P r (annuityVal P r (n : ℤ)) m)).sum = P ∧
    finBalance P r (annuityVal P r (n : ℤ)) n = 0 := by
  have hfe : ∀ m, m ≤ n → finBalance P r (annuityVal P r (n : ℤ)) m =
      linBalance P r (annuityVal P r (n : ℤ)) m :=
    fun m hm => finBalance_eq_linBalance hP hr hn hm
  constructor
  · have hmap : ((List.range n).map (fun m => annuityVal P r (n : ℤ) -
        r * finBalance P r (annuityVal P r (n : ℤ)) m)) =
        ((List.range n).map (fun m => annuityVal P r (n : ℤ) -
          r * linBalance P r (annuityVal P r (n : ℤ)) m)) := by
      apply List.map_congr_left
      intro m hm
      rw [hfe m (le_of_lt (List.mem_range.mp hm))]
    rw [hmap, sum_linAmort, linBalance_final hr hn, sub_zero]
  · rw [hfe n (le_refl n), linBalance_final hr hn]

/-- The principal column of the schedule is the mapped unclamped-interest
difference over the month range. -/
theorem sumAmort_finRows_eq (pv dp : ℚ) (n : ℕ) (annual ins upf mf : ℚ) :
    sumAmort (finRows pv dp (n : ℤ) annual ins upf mf) =
      ((List.range n).map (fun m =>
        annuityVal (pv - dp) (annual / 100 / 12) (n : ℤ) -
          annual / 100 / 12 *
            finBalance (pv - dp) (annual / 100 / 12)
              (annuityVal (pv - dp) (annual / 100 / 12) (n : ℤ)) m)).sum := by
  have ht : (((n : ℤ)).toNat) = n := by omega
  simp only [sumAmort, finRows, ht, List.drop_succ_cons, List.drop_zero,
    List.map_map]
  congr 1

/-- C4 amended: whenever the down payment does not exceed the property value
(non-negative financed amount), the rate is non-negative and termMonths ≥ 1,
the principal components of periods 1..termMonths sum exactly to the
financed amount; in the concrete zero-rate, zero-fee case (120000 financed
over 12 months) the sum is exactly 120000 and the closing balance at period
12 is exactly 0. -/
theorem principal_sum_eq_financed (pv dp annual ins upf mf : ℚ) (n : ℕ)
    (hn : 1 ≤ n) (hr : 0 ≤ annual) (hdp : dp ≤ pv) :
    (sumAmort (finRows pv dp (n : ℤ) annual ins upf mf) = pv - dp) ∧
    sumAmort (finRows 120000 0 ((12 : ℕ) : ℤ) 0 0 0 0) = 120000 ∧
    ((finRows 120000 0 ((12 : ℕ) : ℤ) 0 0 0 0).getD 12 default).saldo_final
      = 0 := by
  have hP : 0 ≤ pv - dp := by linarith
  have hrm : 0 ≤ annual / 100 / 12 := by positivity
  have h0 : (0 : ℚ) ≤ 120000 - 0 := by norm_num
  have hr0 : (0 : ℚ) ≤ 0 / 100 / 12 := by norm_num
  have h12 : (1 : ℕ) ≤ 12 := by norm_num
  refine ⟨?_, ?_, ?_⟩
  · rw [sumAmort_finRows_eq]
    exact (sumAmort_core hP hrm hn).1
  · have hs := (sumAmort_core h0 hr0 h12).1
    rw [sumAmort_finRows_eq]
    simpa using hs
  · rw [finRows_getD_saldo_final 120000 0 12 0 0 0 0 (le_refl 12)]
    exact (sumAmort_core h0 hr0 h12).2

/-- Witness for principal_sum_eq_financed: a 2-month, 12-percent loan of 100
amortizes exactly 100 - 0 of principal over its two periods. -/
theorem principal_sum_eq_financed_witness :
    sumAmort (finRows 100 0 ((2 : ℕ) : ℤ) 12 0 0 0) = 100 - 0 :=
  (principal_sum_eq_financed 100 0 12 0 0 0 2 (by norm_num) (by norm_num)
    (by norm_num)).1

/-- C4 counterexample: with a negative financed amount (property 0, down
payment 100, two months at 12 percent annual) the clamp at zero breaks the
telescoping; the principal components sum to -20201/201, off the financed
amount -100 by far more than the 1e-6 tolerance. -/
theorem principal_sum_counterexample :
    sumAmort (finRows 0 100 ((2 : ℕ) : ℤ) 12 0 0 0) = -20201 / 201 ∧
    1 / 1000000 <
      |sumAmort (finRows 0 100 ((2 : ℕ) : ℤ) 12 0 0 0) - (0 - 100)| := by
  have hz : ((1 : ℚ) + 12 / 100 / 12) ^ (-((2 : ℕ) : ℤ)) = 10000 / 10201 := by
    rw [zpow_neg, zpow_natCast]
    norm_num
  have hrange : List.range 2 = [0, 1] := rfl
  have ht : ((((2 : ℕ) : ℤ)).toNat) = 2 := rfl
  have ht2 : Int.toNat 2 = 2 := rfl
  have hb1 : finBalance (-100 : ℚ) (1 / 100) (-(10201 / 201)) 1 = 0 := by
    rw [show (1 : ℕ) = 0 + 1 from rfl]
    simp only [finBalance]
    norm_num [max_def]
  have h : sumAmort (finRows 0 100 ((2 : ℕ) : ℤ) 12 0 0 0) = -20201 / 201 := by
    norm_num [sumAmort, finRows, finRow, finBalance, annuityVal, annuityDenom,
      hz, hrange, ht, ht2, hb1, max_def, Function.comp, List.map_cons,
      List.sum_cons]
  refine ⟨h, ?_⟩
  rw [h, show (-20201 / 201 : ℚ) - (0 - 100) = -(101 / 201) from by norm_num,
    abs_neg, abs_of_nonneg (by norm_num : (0 : ℚ) ≤ 101 / 201)]
  norm_num

/-- Possible outcomes of the Python evaluation of compute_vpl. -/
inductive VplOutcome
  | value : ℝ → VplOutcome
  | complexValue : VplOutcome
  | zeroDivisionError : VplOutcome

/-- compute_vpl from app.py (lines 160-163), with Python float semantics made
explicit: a negative base (annual discount below -100 percent) raised to the
fractional power 1/12 silently yields a complex number, a zero discount
denominator (exactly -100 percent, with a term at index i ≥ 1 present)
raises an uncaught ZeroDivisionError, and otherwise the discounted sum is
returned; no input validation exists in the source. -/
noncomputable def compute_vpl (cfs : List ℝ) (pct : ℝ) : VplOutcome :=
  if 1 + pct / 100 < 0 then VplOutcome.complexValue
  else
    if 1 + ((1 + pct / 100) ^ ((1 : ℝ) / 12) - 1) = 0 ∧ 2 ≤ cfs.length then
      VplOutcome.zeroDivisionError
    else
      VplOutcome.value ((cfs.enum.map (fun p =>
        p.2 / (1 + ((1 + pct / 100) ^ ((1 : ℝ) / 12) - 1)) ^ p.1)).sum)

/-- C5 (code bug): at the annual discount rate -100 with two cash flows
compute_vpl hits an uncaught ZeroDivisionError, and below -100 (here -150)
it silently returns a complex number; in neither case does the claimed
InvalidInputError signaling exist in the code. -/
theorem vpl_discount_at_or_below_minus100_failure :
    compute_vpl [-1, -1] (-100) = VplOutcome.zeroDivisionError ∧
    compute_vpl [-1, -1] (-150) = VplOutcome.complexValue := by
  constructor
  · have h0 : (1 : ℝ) + -100 / 100 = 0 := by norm_num
    have hrp : ((1 : ℝ) + -100 / 100) ^ ((1 : ℝ) / 12) = 0 := by
      rw [h0]
      exact Real.zero_rpow (by norm_num)
    have hc1 : ¬((1 : ℝ) + -100 / 100 < 0) := by
      rw [h0]
      exact lt_irrefl 0
    have hc2 : (1 : ℝ) + (((1 : ℝ) + -100 / 100) ^ ((1 : ℝ) / 12) - 1) = 0 ∧
        2 ≤ ([(-1 : ℝ), -1]).length := ⟨by rw [hrp]; ring, by norm_num⟩
    unfold compute_vpl
    rw [if_neg hc1, if_pos hc2]
  · have hc : (1 : ℝ) + -150 / 100 < 0 := by norm_num
    unfold compute_vpl
    rw [if_pos hc]
